import Mathlib

/-!
Shallow embedding of the process-semantic-layer retrieval pipeline:
concept matching (`src/concept_graph.py`), document tagging and loading
(`src/document_loader.py`), similarity ranking (`src/embedding_engine.py`),
and the retrieval orchestrator with snippet extraction
(`src/retrieval_pipeline.py`), together with the validated response model
(`src/models.py`).

Modelling conventions: Python strings are lists of characters; `str.lower`
is `Char.toLower` mapped over the characters; floating-point similarity
scores are rationals; the external sentence-transformer model and the
sklearn cosine-similarity computation are passed in as function
parameters (they are external collaborators per the design); exceptions
are `Except` values.
-/

namespace PSL

/-- Python `str`, modelled as a list of characters. -/
abbrev PyStr := List Char

/-- An embedding vector (numpy array), modelled as a list of rationals. -/
abbrev Vec := List ℚ

/-- `ConceptGraph._normalize`: lowercase the text (`text.lower()`). -/
def normalize (text : PyStr) : PyStr := text.map Char.toLower

/-- Python substring containment `pat in text`: some suffix of `text`
starts with `pat`. -/
def pySubstr (pat text : PyStr) : Bool :=
  (List.range (text.length + 1)).any (fun i => pat.isPrefixOf (text.drop i))

/-- `models.Concept`: id, name, synonyms, related_to. -/
structure Concept where
  id : PyStr
  name : PyStr
  synonyms : List PyStr
  related_to : List PyStr
deriving DecidableEq

/-- Python dict assignment `d[k] = v`: if the key is present its value is
replaced in place (insertion position kept), otherwise the pair is
appended at the end. -/
def dictInsert (d : List (PyStr × Concept)) (k : PyStr) (v : Concept) :
    List (PyStr × Concept) :=
  match d with
  | [] => [(k, v)]
  | pr :: rest =>
    if pr.1 = k then (k, v) :: rest else pr :: dictInsert rest k v

/-- `ConceptGraph._load_concepts`: builds the `self.concepts` dict by
executing `self.concepts[concept.id] = concept` for each parsed concept,
in file order.  The dict is modelled as an insertion-ordered association
list. -/
def loadConcepts (cs : List Concept) : List (PyStr × Concept) :=
  cs.foldl (fun d c => dictInsert d c.id c) []

/-- The loop body of `ConceptGraph.match_concepts`: append the dict key
when the normalized concept name is a substring of the normalized text;
otherwise scan the synonyms and append the key at the first synonym hit
(`break`). -/
def matchStep (normalizedText : PyStr) (matchedIds : List PyStr)
    (pr : PyStr × Concept) : List PyStr :=
  if pySubstr (normalize pr.2.name) normalizedText then
    matchedIds ++ [pr.1]
  else
    match pr.2.synonyms.find? (fun syn => pySubstr (normalize syn) normalizedText) with
    | some _ => matchedIds ++ [pr.1]
    | none => matchedIds

/-- `ConceptGraph.match_concepts`: empty text gives no matches; otherwise
fold the matching step over the concept dict in iteration (= insertion)
order, starting from an empty id list. -/
def matchConcepts (concepts : List (PyStr × Concept)) (text : PyStr) :
    List PyStr :=
  if text.isEmpty then []
  else concepts.foldl (matchStep (normalize text)) []

/-- A concept hits the normalized text when its case-folded name is a
substring of it, or else some case-folded synonym is. -/
def conceptHit (c : Concept) (normalizedText : PyStr) : Bool :=
  pySubstr (normalize c.name) normalizedText ||
    c.synonyms.any (fun syn => pySubstr (normalize syn) normalizedText)

/-- `models.Document`: a raw document before tagging. -/
structure Document where
  doc_id : PyStr
  title : PyStr
  content : PyStr
deriving DecidableEq

/-- `models.TaggedDocument`: document enriched with matched concepts and
an optional embedding. -/
structure TaggedDocument where
  doc_id : PyStr
  title : PyStr
  content : PyStr
  matched_concepts : List PyStr
  embedding : Option Vec
deriving DecidableEq

/-- The error taxonomy of the design: configuration errors (bad or
missing sources), not-ready, invalid input to the embedding step, and
model validation errors. -/
inductive Err where
  | configError
  | notReady
  | invalidInput
  | validationError
deriving DecidableEq

/-- `DocumentLoader._tag_document`: match concepts against
`f"{doc.title} {doc.content}"` and return the tagged document with no
embedding yet. -/
def tagDocument (store : List (PyStr × Concept)) (doc : Document) : TaggedDocument :=
  { doc_id := doc.doc_id
    title := doc.title
    content := doc.content
    matched_concepts := matchConcepts store (doc.title ++ (' ' :: doc.content))
    embedding := none }

/-- `DocumentLoader.load_documents`: raises a configuration error
(ValueError, "No markdown files found") when the directory holds no
files; otherwise parses and tags each file in sorted order, skipping any
file whose load fails (the per-file try/except).  Each source file is
modelled as `Option Document`: `some` when parsing succeeds, `none` when
it raises. -/
def loadDocuments (store : List (PyStr × Concept)) (files : List (Option Document)) :
    Except Err (List TaggedDocument) :=
  if files.isEmpty then Except.error Err.configError
  else Except.ok (files.filterMap (fun f => f.map (tagDocument store)))

/-- `EmbeddingEngine.embed_documents`: embed `f"{doc.title}. {doc.content}"`
for every document in one batch (one vector per text, in order) and
attach the vectors; an empty list is returned unchanged.  The external
sentence-transformer model is the parameter `encode`. -/
def embedDocuments (encode : PyStr → Vec) (docs : List TaggedDocument) :
    List TaggedDocument :=
  if docs.isEmpty then docs
  else docs.map (fun d =>
    { d with embedding := some (encode (d.title ++ ('.' :: ' ' :: d.content))) })

/-- `EmbeddingEngine.embed_query`: raises ValueError on empty query
text, otherwise encodes the query with the external model. -/
def embedQuery (encode : PyStr → Vec) (queryText : PyStr) : Except Err Vec :=
  if queryText.isEmpty then Except.error Err.invalidInput
  else Except.ok (encode queryText)

/-- One insertion step of a stable descending sort by score: the new
element is placed after every already-placed element whose score is
greater than or equal to its own. -/
def insortDesc (x : TaggedDocument × ℚ) :
    List (TaggedDocument × ℚ) → List (TaggedDocument × ℚ)
  | [] => [x]
  | y :: ys => if y.2 < x.2 then x :: y :: ys else y :: insortDesc x ys

/-- Python `doc_scores.sort(key=lambda x: x[1], reverse=True)`:
`list.sort` is a stable sort, so equal scores keep their input order;
modelled as left-to-right stable insertion. -/
def pySortDesc (l : List (TaggedDocument × ℚ)) : List (TaggedDocument × ℚ) :=
  l.foldl (fun acc x => insortDesc x acc) []

/-- `EmbeddingEngine.rank_by_similarity`: empty input returns empty;
documents without an embedding are filtered out; the rest are paired
with their cosine similarity to the query embedding (sklearn
`cosine_similarity`, modelled by the parameter `sim`) and sorted by
score descending, stable. -/
def rankBySimilarity (sim : Vec → Vec → ℚ) (queryEmbedding : Vec)
    (docs : List TaggedDocument) : List (TaggedDocument × ℚ) :=
  if docs.isEmpty then []
  else
    let docsWithEmbeddings := docs.filter (fun d => d.embedding.isSome)
    if docsWithEmbeddings.isEmpty then []
    else
      let docScores := docsWithEmbeddings.map
        (fun d => (d, sim queryEmbedding (d.embedding.getD [])))
      pySortDesc docScores

/-- Python `str.strip()`: drop whitespace from both ends. -/
def pyStrip (s : PyStr) : PyStr :=
  ((s.dropWhile Char.isWhitespace).reverse.dropWhile Char.isWhitespace).reverse

/-- Python `str.rfind(pat)`: the greatest index at which `pat` occurs as
a substring, or `-1` when it does not occur. -/
def pyRfind (s pat : PyStr) : Int :=
  match ((List.range (s.length + 1)).filter
      (fun i => pat.isPrefixOf (s.drop i))).getLast? with
  | some i => (i : Int)
  | none => -1

/-- `RetrievalPipeline._extract_snippet`: empty content gives the empty
string; content no longer than `max_chars` is returned unchanged;
otherwise the delimiters `". "`, `"? "`, `"! "` are tried in order on
the first `max_chars` characters, cutting through the punctuation of
the first delimiter whose last occurrence lies strictly beyond
`max_chars // 2`; failing all three, cut at the last space (when at a
positive index), strip, and append `"..."`. -/
def extractSnippet (content : PyStr) (maxChars : ℕ) : PyStr :=
  if content.isEmpty then []
  else if content.length ≤ maxChars then content
  else
    let snippet := content.take maxChars
    let d1 := pyRfind snippet ['.', ' ']
    if d1 > ((maxChars / 2 : ℕ) : Int) then pyStrip (snippet.take (d1.toNat + 1))
    else
      let d2 := pyRfind snippet ['?', ' ']
      if d2 > ((maxChars / 2 : ℕ) : Int) then pyStrip (snippet.take (d2.toNat + 1))
      else
        let d3 := pyRfind snippet ['!', ' ']
        if d3 > ((maxChars / 2 : ℕ) : Int) then pyStrip (snippet.take (d3.toNat + 1))
        else
          let lastSpace := pyRfind snippet [' ']
          let snippet2 := if lastSpace > 0 then snippet.take lastSpace.toNat else snippet
          pyStrip snippet2 ++ ['.', '.', '.']

/-- `models.QueryResponse` (pydantic): the validated response record. -/
structure QueryResponse where
  doc_id : PyStr
  title : PyStr
  matched_concepts : List PyStr
  score : ℚ
  snippet : PyStr
deriving DecidableEq

/-- Pydantic construction of `QueryResponse`: the `score` field carries
the constraints `ge=0.0, le=1.0`, so construction raises a validation
error when the score is outside `[0, 1]`. -/
def mkQueryResponse (docId title : PyStr) (matchedConcepts : List PyStr)
    (score : ℚ) (snippet : PyStr) : Except Err QueryResponse :=
  if 0 ≤ score ∧ score ≤ 1 then
    Except.ok
      { doc_id := docId
        title := title
        matched_concepts := matchedConcepts
        score := score
        snippet := snippet }
  else Except.error Err.validationError

/-- The result-assembly loop of `RetrievalPipeline.query` (step 4):
for each selected (document, score) pair in rank order, extract a
snippet with `max_chars=200` and construct a validated `QueryResponse`;
the first validation failure raises. -/
def buildResults : List (TaggedDocument × ℚ) → Except Err (List QueryResponse)
  | [] => Except.ok []
  | (doc, score) :: rest =>
    match mkQueryResponse doc.doc_id doc.title doc.matched_concepts score
        (extractSnippet doc.content 200) with
    | Except.error e => Except.error e
    | Except.ok r =>
      match buildResults rest with
      | Except.error e => Except.error e
      | Except.ok rs => Except.ok (r :: rs)

/-- The candidate-filtering step of `RetrievalPipeline.query` (step 2):
when some concepts matched, keep the documents sharing at least one
matched concept id; otherwise search all documents. -/
def candidateDocs (documents : List TaggedDocument)
    (matchedConceptIds : List PyStr) : List TaggedDocument :=
  if !matchedConceptIds.isEmpty then
    documents.filter (fun doc =>
      matchedConceptIds.any (fun cid => decide (cid ∈ doc.matched_concepts)))
  else documents

/-- The orchestrator state: the concept store, the in-memory tagged
document collection, and the one-way initialization flag. -/
structure Pipeline where
  store : List (PyStr × Concept)
  documents : List TaggedDocument
  initialized : Bool
deriving DecidableEq

/-- `RetrievalPipeline.initialize`: a no-op when already initialized;
otherwise load and tag the documents (propagating the configuration
error when the directory has no files), embed them in one batch, and
flip the initialization flag. -/
def initPipeline (encode : PyStr → Vec) (p : Pipeline)
    (files : List (Option Document)) : Except Err Pipeline :=
  if p.initialized then Except.ok p
  else
    match loadDocuments p.store files with
    | Except.error e => Except.error e
    | Except.ok docs =>
      Except.ok { p with documents := embedDocuments encode docs, initialized := true }

/-- `RetrievalPipeline.query`: raise when not initialized; return `[]`
for empty or whitespace-only query text; match concepts, filter
candidates, return `[]` when no candidates remain; embed the query,
rank the candidates by similarity, and build validated responses for
the first `top_k` ranked pairs. -/
def pipelineQuery (encode : PyStr → Vec) (sim : Vec → Vec → ℚ) (p : Pipeline)
    (queryText : PyStr) (topK : ℕ) : Except Err (List QueryResponse) :=
  if p.initialized = false then Except.error Err.notReady
  else if queryText.isEmpty || (pyStrip queryText).isEmpty then Except.ok []
  else
    let matchedConceptIds := matchConcepts p.store queryText
    let cands := candidateDocs p.documents matchedConceptIds
    if cands.isEmpty then Except.ok []
    else
      match embedQuery encode queryText with
      | Except.error e => Except.error e
      | Except.ok queryEmbedding =>
        buildResults ((rankBySimilarity sim queryEmbedding cands).take topK)

/-- A concrete tagged document, used to instantiate hypothesized
theorems at a concrete input. -/
def sampleDoc : TaggedDocument :=
  { doc_id := "d1".data
    title := "T".data
    content := "x".data
    matched_concepts := ["a".data]
    embedding := some [1] }

/-- A concrete initialized pipeline over `sampleDoc` with an empty
concept store. -/
def samplePipeline : Pipeline :=
  { store := [], documents := [sampleDoc], initialized := true }

/-- The response that querying `samplePipeline` for "hi" produces under
the constant-one encoder and similarity. -/
def sampleResponse : QueryResponse :=
  { doc_id := "d1".data
    title := "T".data
    matched_concepts := ["a".data]
    score := 1
    snippet := "x".data }

/-- A concrete content whose 13-character head has a ". " at index 7
and a later "? " at index 11, both beyond the midpoint 13 / 2 = 6. -/
def c4Content : PyStr := "abcdefg. hi? klm".data

theorem matchStep_eq (nt : PyStr) (acc : List PyStr) (pr : PyStr × Concept) :
    matchStep nt acc pr = if conceptHit pr.2 nt then acc ++ [pr.1] else acc := by
  unfold matchStep conceptHit
  by_cases hname : pySubstr (normalize pr.2.name) nt
  · simp [hname]
  · simp only [hname, Bool.false_or, if_neg, Bool.not_eq_true]
    cases hfind : pr.2.synonyms.find? (fun syn => pySubstr (normalize syn) nt) with
    | none =>
      have hany : pr.2.synonyms.any (fun syn => pySubstr (normalize syn) nt) = false := by
        rw [List.any_eq_false]
        intro s hs
        exact List.find?_eq_none.mp hfind s hs
      simp [hany]
    | some s =>
      have hmem := List.mem_of_find?_eq_some hfind
      have hp := List.find?_some hfind
      have hany : pr.2.synonyms.any (fun syn => pySubstr (normalize syn) nt) = true := by
        rw [List.any_eq_true]
        exact ⟨s, hmem, hp⟩
      simp [hany]

theorem matchConcepts_foldl (store : List (PyStr × Concept)) (nt : PyStr)
    (acc : List PyStr) :
    store.foldl (matchStep nt) acc
      = acc ++ (store.filter (fun pr => conceptHit pr.2 nt)).map Prod.fst := by
  induction store generalizing acc with
  | nil => simp
  | cons pr rest ih =>
    rw [List.foldl_cons, ih, matchStep_eq]
    by_cases h : conceptHit pr.2 nt
    · simp [h, List.filter_cons]
    · simp [h, List.filter_cons]

/-- Characterization of `match_concepts`: for nonempty text it returns,
in store order, the dict keys of exactly the concepts that hit the
normalized text; for empty text it returns the empty list. -/
theorem matchConcepts_eq (store : List (PyStr × Concept)) (text : PyStr) :
    matchConcepts store text
      = if text.isEmpty then []
        else (store.filter (fun pr => conceptHit pr.2 (normalize text))).map Prod.fst := by
  unfold matchConcepts
  by_cases h : text.isEmpty
  · simp [h]
  · simp [h, matchConcepts_foldl]

theorem mem_keys_dictInsert (d : List (PyStr × Concept)) (k x : PyStr) (v : Concept) :
    x ∈ (dictInsert d k v).map Prod.fst ↔ x ∈ d.map Prod.fst ∨ x = k := by
  induction d with
  | nil => simp [dictInsert]
  | cons pr rest ih =>
    by_cases h : pr.1 = k
    · have e : dictInsert (pr :: rest) k v = (k, v) :: rest := by
        simp [dictInsert, h]
      rw [e]
      simp only [List.map_cons, List.mem_cons, h]
      tauto
    · have e : dictInsert (pr :: rest) k v = pr :: dictInsert rest k v := by
        simp [dictInsert, h]
      rw [e]
      simp only [List.map_cons, List.mem_cons, ih]
      tauto

theorem nodup_keys_dictInsert (d : List (PyStr × Concept)) (k : PyStr) (v : Concept)
    (hd : (d.map Prod.fst).Nodup) : ((dictInsert d k v).map Prod.fst).Nodup := by
  induction d with
  | nil => simp [dictInsert]
  | cons pr rest ih =>
    simp only [List.map_cons, List.nodup_cons] at hd
    by_cases h : pr.1 = k
    · have e : dictInsert (pr :: rest) k v = (k, v) :: rest := by
        simp [dictInsert, h]
      rw [e]
      simp only [List.map_cons, List.nodup_cons]
      refine ⟨?_, hd.2⟩
      rw [← h]
      exact hd.1
    · have e : dictInsert (pr :: rest) k v = pr :: dictInsert rest k v := by
        simp [dictInsert, h]
      rw [e]
      simp only [List.map_cons, List.nodup_cons]
      refine ⟨?_, ih hd.2⟩
      rw [mem_keys_dictInsert]
      rintro (hmem | hk)
      · exact hd.1 hmem
      · exact h hk

/-- The concept store built by `_load_concepts` has pairwise-distinct
keys (dict semantics). -/
theorem nodup_keys_loadConcepts (cs : List Concept) :
    ((loadConcepts cs).map Prod.fst).Nodup := by
  unfold loadConcepts
  suffices h : ∀ acc : List (PyStr × Concept), (acc.map Prod.fst).Nodup →
      ((cs.foldl (fun d c => dictInsert d c.id c) acc).map Prod.fst).Nodup by
    exact h [] (by simp)
  induction cs with
  | nil => intro acc hacc; simpa using hacc
  | cons c rest ih =>
    intro acc hacc
    exact ih _ (nodup_keys_dictInsert acc c.id c hacc)

theorem insortDesc_perm (x : TaggedDocument × ℚ) (l : List (TaggedDocument × ℚ)) :
    (insortDesc x l).Perm (x :: l) := by
  induction l with
  | nil => exact List.Perm.refl _
  | cons y ys ih =>
    unfold insortDesc
    by_cases h : y.2 < x.2
    · rw [if_pos h]
    · rw [if_neg h]
      exact (ih.cons y).trans (List.Perm.swap x y ys)

theorem insortDesc_mem (x z : TaggedDocument × ℚ) (l : List (TaggedDocument × ℚ)) :
    z ∈ insortDesc x l ↔ z = x ∨ z ∈ l :=
  (insortDesc_perm x l).mem_iff.trans List.mem_cons

theorem insortDesc_pairwise (x : TaggedDocument × ℚ) (l : List (TaggedDocument × ℚ))
    (hl : l.Pairwise (fun a b => b.2 ≤ a.2)) :
    (insortDesc x l).Pairwise (fun a b => b.2 ≤ a.2) := by
  induction l with
  | nil => simp [insortDesc]
  | cons y ys ih =>
    rw [List.pairwise_cons] at hl
    unfold insortDesc
    by_cases h : y.2 < x.2
    · rw [if_pos h, List.pairwise_cons]
      constructor
      · intro z hz
        rcases List.mem_cons.mp hz with rfl | hzys
        · exact le_of_lt h
        · exact le_trans (hl.1 z hzys) (le_of_lt h)
      · exact List.pairwise_cons.mpr hl
    · rw [if_neg h, List.pairwise_cons]
      constructor
      · intro z hz
        rcases (insortDesc_mem x z ys).mp hz with rfl | hzys
        · exact le_of_not_lt h
        · exact hl.1 z hzys
      · exact ih hl.2

theorem insortDesc_filter (x : TaggedDocument × ℚ) (l : List (TaggedDocument × ℚ))
    (s : ℚ) (hl : l.Pairwise (fun a b => b.2 ≤ a.2)) :
    (insortDesc x l).filter (fun y => decide (y.2 = s))
      = l.filter (fun y => decide (y.2 = s)) ++ if x.2 = s then [x] else [] := by
  induction l with
  | nil => by_cases h : x.2 = s <;> simp [insortDesc, h]
  | cons y ys ih =>
    rw [List.pairwise_cons] at hl
    unfold insortDesc
    by_cases h : y.2 < x.2
    · rw [if_pos h]
      by_cases hx : x.2 = s
      · have hnil : (y :: ys).filter (fun z => decide (z.2 = s)) = [] := by
          rw [List.filter_eq_nil_iff]
          intro z hz
          simp only [decide_eq_true_eq]
          rcases List.mem_cons.mp hz with rfl | hzys
          · exact ne_of_lt (hx ▸ h)
          · exact ne_of_lt (lt_of_le_of_lt (hl.1 z hzys) (hx ▸ h))
        rw [List.filter_cons, hnil]
        simp [hx]
      · rw [List.filter_cons]
        simp [hx]
    · rw [if_neg h, List.filter_cons, List.filter_cons, ih hl.2]
      by_cases hy : y.2 = s <;> simp [hy]

theorem foldlInsort_pairwise (l acc : List (TaggedDocument × ℚ))
    (ha : acc.Pairwise (fun a b => b.2 ≤ a.2)) :
    (l.foldl (fun a x => insortDesc x a) acc).Pairwise (fun a b => b.2 ≤ a.2) := by
  induction l generalizing acc with
  | nil => simpa using ha
  | cons x xs ih => exact ih _ (insortDesc_pairwise x acc ha)

theorem pySortDesc_pairwise (l : List (TaggedDocument × ℚ)) :
    (pySortDesc l).Pairwise (fun a b => b.2 ≤ a.2) :=
  foldlInsort_pairwise l [] (by simp)

theorem foldlInsort_perm (l acc : List (TaggedDocument × ℚ)) :
    (l.foldl (fun a x => insortDesc x a) acc).Perm (acc ++ l) := by
  induction l generalizing acc with
  | nil => simp
  | cons x xs ih =>
    rw [List.foldl_cons]
    refine (ih (insortDesc x acc)).trans ?_
    refine (((insortDesc_perm x acc).append_right xs).trans ?_)
    exact List.perm_middle.symm

theorem pySortDesc_perm (l : List (TaggedDocument × ℚ)) : (pySortDesc l).Perm l := by
  simpa using foldlInsort_perm l []

theorem foldlInsort_filter (l acc : List (TaggedDocument × ℚ)) (s : ℚ)
    (ha : acc.Pairwise (fun a b => b.2 ≤ a.2)) :
    (l.foldl (fun a x => insortDesc x a) acc).filter (fun y => decide (y.2 = s))
      = acc.filter (fun y => decide (y.2 = s)) ++ l.filter (fun y => decide (y.2 = s)) := by
  induction l generalizing acc with
  | nil => simp
  | cons x xs ih =>
    rw [List.foldl_cons, ih _ (insortDesc_pairwise x acc ha),
      insortDesc_filter x acc s ha, List.filter_cons]
    by_cases hx : x.2 = s <;> simp [hx]

theorem pySortDesc_filter (l : List (TaggedDocument × ℚ)) (s : ℚ) :
    (pySortDesc l).filter (fun y => decide (y.2 = s))
      = l.filter (fun y => decide (y.2 = s)) := by
  simpa using foldlInsort_filter l [] s (by simp)

theorem rankBySimilarity_eq (sim : Vec → Vec → ℚ) (q : Vec)
    (docs : List TaggedDocument) :
    rankBySimilarity sim q docs
      = pySortDesc ((docs.filter (fun d => d.embedding.isSome)).map
          (fun d => (d, sim q (d.embedding.getD [])))) := by
  simp only [rankBySimilarity]
  by_cases h1 : docs.isEmpty
  · have : docs = [] := by simpa using h1
    subst this
    simp [pySortDesc]
  · rw [if_neg (by simpa using h1)]
    by_cases h2 : (docs.filter (fun d => d.embedding.isSome)).isEmpty
    · have h2e : docs.filter (fun d => d.embedding.isSome) = [] := by simpa using h2
      rw [if_pos (by simpa using h2)]
      simp [h2e, pySortDesc]
    · rw [if_neg (by simpa using h2)]

/-- C3: for every query vector and every sequence of tagged documents,
the ranker's output is sorted by score in non-increasing order, and
entries with exactly equal scores keep the relative order they had in
the (embedded-document) input sequence: filtering the output and the
scored input by any fixed score value yields the same list. -/
theorem c3_rank_sorted_stable :
    ∀ (sim : Vec → Vec → ℚ) (q : Vec) (docs : List TaggedDocument),
      (rankBySimilarity sim q docs).Pairwise (fun a b => b.2 ≤ a.2) ∧
      ∀ s : ℚ, (rankBySimilarity sim q docs).filter (fun y => decide (y.2 = s))
        = ((docs.filter (fun d => d.embedding.isSome)).map
            (fun d => (d, sim q (d.embedding.getD [])))).filter
              (fun y => decide (y.2 = s)) := by
  intro sim q docs
  rw [rankBySimilarity_eq]
  exact ⟨pySortDesc_pairwise _, fun s => pySortDesc_filter _ s⟩

/-- C7: the ranker's output consists of exactly the input documents that
carry an embedding (a permutation of the embedded-document filter of the
input), and an empty input yields an empty output rather than an
error. -/
theorem c7_rank_membership :
    ∀ (sim : Vec → Vec → ℚ) (q : Vec) (docs : List TaggedDocument),
      ((rankBySimilarity sim q docs).map Prod.fst).Perm
        (docs.filter (fun d => d.embedding.isSome)) ∧
      rankBySimilarity sim q [] = [] := by
  intro sim q docs
  constructor
  · rw [rankBySimilarity_eq]
    have h1 := (pySortDesc_perm ((docs.filter (fun d => d.embedding.isSome)).map
      (fun d => (d, sim q (d.embedding.getD []))))).map Prod.fst
    have h2 : ((docs.filter (fun d => d.embedding.isSome)).map
        (fun d => (d, sim q (d.embedding.getD [])))).map Prod.fst
          = docs.filter (fun d => d.embedding.isSome) := by
      simp only [List.map_map, Function.comp_def, List.map_id']
    rw [h2] at h1
    exact h1
  · rfl

/-- C2: for non-empty text, the match operation returns, in store
insertion order, the ids (dict keys, which equal the concept ids at
load) of exactly those concepts whose case-folded name is a substring of
the case-folded text or, failing the name check, that have some
case-folded synonym that is a substring; each concept contributes its id
at most once (the result is a filter-then-project of the store); empty
text gives the empty sequence. -/
theorem c2_match_characterization :
    ∀ (store : List (PyStr × Concept)) (text : PyStr),
      matchConcepts store text
        = if text.isEmpty then []
          else (store.filter (fun pr =>
              pySubstr (normalize pr.2.name) (normalize text) ||
              pr.2.synonyms.any (fun syn =>
                pySubstr (normalize syn) (normalize text)))).map Prod.fst := by
  intro store text
  rw [matchConcepts_eq]
  rfl

/-- C9: the concept ids produced by matching over a store built from
loading (dict construction) never contain duplicates, and hence neither
does the `matched_concepts` field of any tagged document. -/
theorem c9_match_nodup :
    ∀ (cs : List Concept) (text : PyStr),
      (matchConcepts (loadConcepts cs) text).Nodup ∧
      ∀ doc : Document, ((tagDocument (loadConcepts cs) doc).matched_concepts).Nodup := by
  intro cs text
  have key : ∀ t : PyStr, (matchConcepts (loadConcepts cs) t).Nodup := by
    intro t
    rw [matchConcepts_eq]
    by_cases h : t.isEmpty
    · simp [h]
    · rw [if_neg (by simpa using h)]
      have hsub : (((loadConcepts cs).filter
            (fun pr => conceptHit pr.2 (normalize t))).map Prod.fst).Sublist
          ((loadConcepts cs).map Prod.fst) :=
        (List.filter_sublist _).map Prod.fst
      exact (nodup_keys_loadConcepts cs).sublist hsub
  exact ⟨key text, fun doc => key _⟩

/-- C1: when the concept match result is non-empty, the candidate set is
exactly the documents whose `matched_concepts` share at least one id
with it; when it is empty, the candidate set is the whole collection, so
concept matching never excludes a document when nothing matched. -/
theorem c1_candidate_set :
    ∀ (docs : List TaggedDocument) (matched : List PyStr),
      (matched ≠ [] → ∀ d : TaggedDocument,
        d ∈ candidateDocs docs matched ↔
          d ∈ docs ∧ ∃ cid ∈ matched, cid ∈ d.matched_concepts) ∧
      (matched = [] → candidateDocs docs matched = docs) := by
  intro docs matched
  constructor
  · intro hne d
    have hnem : matched.isEmpty = false := by
      cases matched with
      | nil => exact absurd rfl hne
      | cons c cs => rfl
    unfold candidateDocs
    rw [hnem]
    simp [List.mem_filter, List.any_eq_true]
  · intro h
    subst h
    rfl

theorem c1_witness :
    (sampleDoc ∈ candidateDocs [sampleDoc] ["a".data] ↔
      sampleDoc ∈ [sampleDoc] ∧
        ∃ cid ∈ ["a".data], cid ∈ sampleDoc.matched_concepts) ∧
    candidateDocs [sampleDoc] [] = [sampleDoc] :=
  ⟨(c1_candidate_set [sampleDoc] ["a".data]).1 (by decide) sampleDoc,
   (c1_candidate_set [sampleDoc] []).2 rfl⟩

theorem pyStrip_all_whitespace (s : PyStr) (h : ∀ c ∈ s, c.isWhitespace) :
    pyStrip s = [] := by
  unfold pyStrip
  have h1 : s.dropWhile Char.isWhitespace = [] := by
    rw [List.dropWhile_eq_nil_iff]
    exact h
  rw [h1]
  rfl

/-- C5: once the pipeline is initialized, a query whose text is empty or
all-whitespace returns the empty result list; the statement holds for
every external encoder, so the embedding step (which fails on empty
text) is never consulted for such a query. -/
theorem c5_empty_query :
    ∀ (encode : PyStr → Vec) (sim : Vec → Vec → ℚ) (p : Pipeline)
      (queryText : PyStr) (topK : ℕ),
      p.initialized = true → (∀ c ∈ queryText, c.isWhitespace) →
      pipelineQuery encode sim p queryText topK = Except.ok [] := by
  intro encode sim p t k hinit hws
  have hstrip : pyStrip t = [] := pyStrip_all_whitespace t hws
  simp [pipelineQuery, hinit, hstrip]

theorem c5_witness :
    pipelineQuery (fun _ => []) (fun _ _ => 0)
        { store := [], documents := [], initialized := true } " ".data 5
      = Except.ok [] :=
  c5_empty_query _ _ _ _ 5 rfl (by decide)

/-- C6 fails as stated: a document source holding a single file that
fails to load produces zero documents without any error (per-file
failures are skipped), so initialization reaches the Ready state with an
empty document collection. -/
theorem c6_counterexample :
    initPipeline (fun _ => [])
        { store := [], documents := [], initialized := false } [none]
      = Except.ok { store := [], documents := [], initialized := true } := by
  rfl

/-- C6 (amended): when the document directory holds no files at all,
initialization of an uninitialized pipeline fails with a configuration
error before reaching Ready; if files exist but all fail to load, the
pipeline does become Ready with an empty collection. -/
theorem c6_no_files_config_error :
    ∀ (encode : PyStr → Vec) (p : Pipeline), p.initialized = false →
      initPipeline encode p [] = Except.error Err.configError := by
  intro encode p h
  simp [initPipeline, h, loadDocuments]

theorem c6_witness :
    initPipeline (fun _ => [])
        { store := [], documents := [], initialized := false } []
      = Except.error Err.configError :=
  c6_no_files_config_error _ _ rfl

theorem pyStrip_length_le (s : PyStr) : (pyStrip s).length ≤ s.length := by
  unfold pyStrip
  rw [List.length_reverse]
  refine le_trans (List.Sublist.length_le (List.dropWhile_sublist _)) ?_
  rw [List.length_reverse]
  exact List.Sublist.length_le (List.dropWhile_sublist _)

theorem take_length_le (s : PyStr) (k : ℕ) : (s.take k).length ≤ s.length := by
  rw [List.length_take]
  exact min_le_right _ _

/-- C8: for every content and positive `max_chars`, the extracted
snippet is at most `max_chars` plus the three characters of the
ellipsis marker long; and content already within `max_chars` is
returned unchanged. -/
theorem c8_snippet_length :
    ∀ (content : PyStr) (maxChars : ℕ), 0 < maxChars →
      (extractSnippet content maxChars).length ≤ maxChars + 3 ∧
      (content.length ≤ maxChars → extractSnippet content maxChars = content) := by
  intro content maxChars hpos
  constructor
  · by_cases h0 : content.isEmpty
    · simp [extractSnippet, h0]
    · by_cases h1 : content.length ≤ maxChars
      · rw [extractSnippet, if_neg (by simpa using h0), if_pos h1]
        exact le_trans h1 (Nat.le_add_right _ 3)
      · have hsnip : (content.take maxChars).length = maxChars := by
          rw [List.length_take]
          omega
        have bound : ∀ k : ℕ, (pyStrip ((content.take maxChars).take k)).length
            ≤ maxChars + 3 := by
          intro k
          refine le_trans (pyStrip_length_le _) (le_trans (take_length_le _ k) ?_)
          rw [hsnip]
          exact Nat.le_add_right _ 3
        simp only [extractSnippet]
        rw [if_neg (by simpa using h0), if_neg h1]
        split_ifs with hd1 hd2 hd3 hls
        · exact bound _
        · exact bound _
        · exact bound _
        · rw [List.length_append]
          have := le_trans (pyStrip_length_le ((content.take maxChars).take
            (pyRfind (content.take maxChars) [' ']).toNat))
            (take_length_le _ _)
          simp only [List.length_cons, List.length_nil]
          omega
        · rw [List.length_append]
          have := pyStrip_length_le (content.take maxChars)
          simp only [List.length_cons, List.length_nil]
          omega
  · intro h1
    by_cases h0 : content.isEmpty
    · rw [extractSnippet, if_pos h0]
      exact (List.isEmpty_iff.mp h0).symm
    · rw [extractSnippet, if_neg (by simpa using h0), if_pos h1]

theorem c8_witness : extractSnippet "ab".data 5 = "ab".data :=
  (c8_snippet_length "ab".data 5 (by decide)).2 (by decide)

/-- C4 fails as stated: in the 13-character head of `c4Content` the
rightmost sentence terminator is "? " at index 11, strictly beyond
13 / 2, yet the extractor does not truncate through it — the earlier
". " at index 7 wins because the delimiters are scanned in priority
order, each compared against the midpoint on its own. -/
theorem c4_counterexample :
    13 < c4Content.length ∧
    pyRfind (c4Content.take 13) ['?', ' '] = 11 ∧
    pyRfind (c4Content.take 13) ['.', ' '] < 11 ∧
    pyRfind (c4Content.take 13) ['!', ' '] < 11 ∧
    (((13 : ℕ) / 2 : ℕ) : Int) < 11 ∧
    extractSnippet c4Content 13 ≠ pyStrip ((c4Content.take 13).take (11 + 1)) := by
  decide

/-- C4 (amended): for content longer than `max_chars`, the tokens
". ", "? ", "! " are tried in priority order on the head; the first
token whose last occurrence lies strictly beyond `max_chars // 2`
determines the cut, and the snippet is the head truncated through that
token's punctuation character, trimmed of surrounding whitespace. -/
theorem c4_snippet_priority_cut :
    ∀ (content : PyStr) (maxChars : ℕ), maxChars < content.length →
      ((pyRfind (content.take maxChars) ['.', ' '] > ((maxChars / 2 : ℕ) : Int) →
        extractSnippet content maxChars
          = pyStrip ((content.take maxChars).take
              ((pyRfind (content.take maxChars) ['.', ' ']).toNat + 1))) ∧
       (pyRfind (content.take maxChars) ['.', ' '] ≤ ((maxChars / 2 : ℕ) : Int) →
        pyRfind (content.take maxChars) ['?', ' '] > ((maxChars / 2 : ℕ) : Int) →
        extractSnippet content maxChars
          = pyStrip ((content.take maxChars).take
              ((pyRfind (content.take maxChars) ['?', ' ']).toNat + 1))) ∧
       (pyRfind (content.take maxChars) ['.', ' '] ≤ ((maxChars / 2 : ℕ) : Int) →
        pyRfind (content.take maxChars) ['?', ' '] ≤ ((maxChars / 2 : ℕ) : Int) →
        pyRfind (content.take maxChars) ['!', ' '] > ((maxChars / 2 : ℕ) : Int) →
        extractSnippet content maxChars
          = pyStrip ((content.take maxChars).take
              ((pyRfind (content.take maxChars) ['!', ' ']).toNat + 1)))) := by
  intro content maxChars hlen
  have hne : content.isEmpty = false := by
    cases content with
    | nil => simp at hlen
    | cons c cs => rfl
  have hgt : ¬ content.length ≤ maxChars := by omega
  refine ⟨?_, ?_, ?_⟩
  · intro h1
    simp only [extractSnippet]
    rw [if_neg (by simp [hne]), if_neg hgt, if_pos h1]
  · intro h1 h2
    simp only [extractSnippet]
    rw [if_neg (by simp [hne]), if_neg hgt, if_neg (not_lt.mpr h1), if_pos h2]
  · intro h1 h2 h3
    simp only [extractSnippet]
    rw [if_neg (by simp [hne]), if_neg hgt, if_neg (not_lt.mpr h1),
      if_neg (not_lt.mpr h2), if_pos h3]

theorem c4_witness :
    extractSnippet c4Content 13
      = pyStrip ((c4Content.take 13).take
          ((pyRfind (c4Content.take 13) ['.', ' ']).toNat + 1)) :=
  (c4_snippet_priority_cut c4Content 13 (by decide)).1 (by decide)

theorem buildResults_ok_scores (pairs : List (TaggedDocument × ℚ))
    (rs : List QueryResponse) (h : buildResults pairs = Except.ok rs) :
    ∀ r ∈ rs, 0 ≤ r.score ∧ r.score ≤ 1 := by
  induction pairs generalizing rs with
  | nil =>
    rw [buildResults] at h
    cases h
    intro r hr
    cases hr
  | cons pr rest ih =>
    rw [buildResults] at h
    cases hmk : mkQueryResponse pr.1.doc_id pr.1.title pr.1.matched_concepts pr.2
        (extractSnippet pr.1.content 200) with
    | error e =>
      rw [hmk] at h
      cases h
    | ok r0 =>
      rw [hmk] at h
      cases hrec : buildResults rest with
      | error e =>
        rw [hrec] at h
        cases h
      | ok rs2 =>
        rw [hrec] at h
        cases h
        intro r hr
        rcases List.mem_cons.mp hr with rfl | h2
        · unfold mkQueryResponse at hmk
          by_cases hc : 0 ≤ pr.2 ∧ pr.2 ≤ 1
          · rw [if_pos hc] at hmk
            cases hmk
            exact hc
          · rw [if_neg hc] at hmk
            cases hmk
        · exact ih rs2 hrec r h2

theorem buildResults_out_of_range (pairs : List (TaggedDocument × ℚ))
    (h : ∃ pr ∈ pairs, ¬(0 ≤ pr.2 ∧ pr.2 ≤ 1)) :
    ∃ e, buildResults pairs = Except.error e := by
  induction pairs with
  | nil =>
    obtain ⟨q, hq, _⟩ := h
    cases hq
  | cons pr rest ih =>
    obtain ⟨q, hq, hbad⟩ := h
    rcases List.mem_cons.mp hq with rfl | hqrest
    · refine ⟨Err.validationError, ?_⟩
      rw [buildResults]
      unfold mkQueryResponse
      rw [if_neg hbad]
    · cases hmk : mkQueryResponse pr.1.doc_id pr.1.title pr.1.matched_concepts pr.2
          (extractSnippet pr.1.content 200) with
      | error e =>
        refine ⟨e, ?_⟩
        rw [buildResults, hmk]
      | ok r0 =>
        obtain ⟨e, he⟩ := ih ⟨q, hqrest, hbad⟩
        refine ⟨e, ?_⟩
        rw [buildResults, hmk, he]

theorem pipelineQuery_ok_scores (encode : PyStr → Vec) (sim : Vec → Vec → ℚ)
    (p : Pipeline) (t : PyStr) (k : ℕ) (rs : List QueryResponse)
    (h : pipelineQuery encode sim p t k = Except.ok rs) :
    ∀ r ∈ rs, 0 ≤ r.score ∧ r.score ≤ 1 := by
  simp only [pipelineQuery] at h
  by_cases h1 : p.initialized = false
  · rw [if_pos h1] at h
    cases h
  · rw [if_neg h1] at h
    by_cases h2 : (t.isEmpty || (pyStrip t).isEmpty) = true
    · rw [if_pos h2] at h
      cases h
      intro r hr
      cases hr
    · rw [if_neg h2] at h
      by_cases h3 : (candidateDocs p.documents (matchConcepts p.store t)).isEmpty = true
      · rw [if_pos h3] at h
        cases h
        intro r hr
        cases hr
      · rw [if_neg h3] at h
        cases hq : embedQuery encode t with
        | error e =>
          rw [hq] at h
          cases h
        | ok qe =>
          rw [hq] at h
          exact buildResults_ok_scores _ rs h

theorem pipelineQuery_bad_score_errors (encode : PyStr → Vec)
    (sim : Vec → Vec → ℚ) (p : Pipeline) (t : PyStr) (k : ℕ)
    (hinit : p.initialized = true)
    (hne : (t.isEmpty || (pyStrip t).isEmpty) = false)
    (hex : ∃ pr ∈ (rankBySimilarity sim (encode t)
        (candidateDocs p.documents (matchConcepts p.store t))).take k,
      ¬(0 ≤ pr.2 ∧ pr.2 ≤ 1)) :
    ∃ e, pipelineQuery encode sim p t k = Except.error e := by
  have htne : t.isEmpty = false := by
    cases h : t.isEmpty
    · rfl
    · rw [h] at hne
      simp at hne
  have hcne : (candidateDocs p.documents (matchConcepts p.store t)).isEmpty = false := by
    cases hc : (candidateDocs p.documents (matchConcepts p.store t)).isEmpty
    · rfl
    · have hnil : candidateDocs p.documents (matchConcepts p.store t) = [] := by
        simpa using hc
      rw [hnil] at hex
      obtain ⟨pr, hpr, _⟩ := hex
      simp [rankBySimilarity] at hpr
  obtain ⟨e, he⟩ := buildResults_out_of_range _ hex
  refine ⟨e, ?_⟩
  simp only [pipelineQuery]
  rw [if_neg (by simp [hinit]), if_neg (by simp [hne]), if_neg (by simp [hcne])]
  have hq : embedQuery encode t = Except.ok (encode t) := by
    simp [embedQuery, htne]
  rw [hq]
  exact he

/-- C10: every response a successful query returns has its score within
[0, 1] — the pydantic construction validates the field — and whenever
some selected (top-k ranked) candidate's similarity score lies outside
[0, 1], the query raises a validation error instead of returning that
result. -/
theorem c10_scores_validated :
    (∀ (encode : PyStr → Vec) (sim : Vec → Vec → ℚ) (p : Pipeline)
       (t : PyStr) (k : ℕ) (rs : List QueryResponse),
       pipelineQuery encode sim p t k = Except.ok rs →
       ∀ r ∈ rs, 0 ≤ r.score ∧ r.score ≤ 1) ∧
    (∀ (encode : PyStr → Vec) (sim : Vec → Vec → ℚ) (p : Pipeline)
       (t : PyStr) (k : ℕ),
       p.initialized = true →
       (t.isEmpty || (pyStrip t).isEmpty) = false →
       (∃ pr ∈ (rankBySimilarity sim (encode t)
           (candidateDocs p.documents (matchConcepts p.store t))).take k,
         ¬(0 ≤ pr.2 ∧ pr.2 ≤ 1)) →
       ∃ e, pipelineQuery encode sim p t k = Except.error e) :=
  ⟨pipelineQuery_ok_scores, pipelineQuery_bad_score_errors⟩

theorem c10_witness :
    (∀ r ∈ [sampleResponse], 0 ≤ r.score ∧ r.score ≤ 1) ∧
    (∃ e, pipelineQuery (fun _ => [1]) (fun _ _ => 2) samplePipeline
        "hi".data 5 = Except.error e) :=
  ⟨c10_scores_validated.1 (fun _ => [1]) (fun _ _ => 1) samplePipeline "hi".data 5
      [sampleResponse] (by rfl),
   c10_scores_validated.2 (fun _ => [1]) (fun _ _ => 2) samplePipeline "hi".data 5
      rfl rfl ⟨(sampleDoc, 2), by decide, by norm_num⟩⟩

end PSL
